import Mathlib

/-
  Verification development for the llm_social_simulation repository.

  Shallow embedding of `simulation/gameworld.py` (the networked Prisoner's
  Dilemma world `Gameworld` and the commons world `OpenResourcesGameWorld`)
  and `simulation/analytics.py` (`collapse_time`, `gini`).

  Modelling conventions:
  - Python `float` values are modelled as `Rat` (exact rational arithmetic).
  - Python `int` agent ids are modelled as `Int`.
  - Python `dict`s keyed by agent ids are modelled as total functions that are
    zero (resp. `false` / `none`) outside the key set that the dictionary
    actually holds in the source; a dictionary built by iterating over a
    key collection has the deduplicated key list as its key set.
  - Python exceptions are modelled with `Except String`; a raising call
    returns `Except.error` together with the unchanged pre-call state
    (faithful to the source, where the raises occur before any assignment
    to `self.state` / `self.wealth` / `self.last_actions` / `self.t`).
  - Python float division by zero raises `ZeroDivisionError`; the one place
    the source can divide by a zero denominator (`r_mid / cap` with
    `cap == 0`) is therefore modelled as an error.
-/

/- Batteries marks the `Rat` field operations `@[irreducible]`; re-allow
unfolding so that concrete witnesses can be checked by `decide` / `rfl`. -/
unseal Rat.add Rat.mul Rat.sub Rat.inv

namespace LlmSocialSim

abbrev AgentId := Int

abbrev Action := String

/-! ## PayoffMatrix (gameworld.py lines 12-37) -/

/-- Prisoner's Dilemma payoff matrix, fields as in the frozen dataclass. -/
structure PayoffMatrix where
  T : Int := 5
  R : Int := 3
  P : Int := 1
  S : Int := 0
deriving Repr, DecidableEq

/-- `PayoffMatrix.payoff` (lines 28-37): case split on the two actions,
raising `ValueError` for anything outside the C/D alphabet. -/
def PayoffMatrix.payoff (m : PayoffMatrix) (a_i a_j : Action) : Except String (Int × Int) :=
  if a_i = "C" ∧ a_j = "C" then Except.ok (m.R, m.R)
  else if a_i = "D" ∧ a_j = "D" then Except.ok (m.P, m.P)
  else if a_i = "D" ∧ a_j = "C" then Except.ok (m.T, m.S)
  else if a_i = "C" ∧ a_j = "D" then Except.ok (m.S, m.T)
  else Except.error "Invalid actions"

/-! ## Gameworld (gameworld.py lines 40-130) -/

/-- Adjacency-list graph: the Python `dict[int, list[int]]`, in insertion
order.  A Python dict has unique keys; theorems that rely on that carry a
`Nodup` hypothesis on the key list. -/
abbrev Graph := List (AgentId × List AgentId)

/-- Dictionary lookup `self.graph[i]`. -/
def adj (g : Graph) (i : AgentId) : Option (List AgentId) :=
  (g.find? (fun p => decide (p.1 = i))).map Prod.snd

/-- `j` appears in the neighbor list of `i`. -/
def hasEdge (g : Graph) (i j : AgentId) : Bool :=
  match adj g i with
  | some ns => decide (j ∈ ns)
  | none => false

/-- Mutable state of `Gameworld` (lines 57-62): graph and payoff matrix are
set at construction; `wealth`, `last_actions` and `t` are mutated by
`apply_actions`. -/
structure Gameworld where
  graph : Graph
  payoff : PayoffMatrix
  wealth : AgentId → Int
  last_actions : AgentId × AgentId → Option Action
  t : Nat

/-- `TickResult` (lines 40-45).  `actions` is the (deep-copied) joint action,
`delta_payoff` and `wealth` are the per-agent dicts restricted to graph keys. -/
structure TickResult where
  round : Nat
  actions : AgentId → Option (AgentId → Option Action)
  delta_payoff : AgentId → Int
  wealth : AgentId → Int

/-- Joint-action lookup `actions[i][j]`. -/
def lookup2 (actions : AgentId → Option (AgentId → Option Action)) (i j : AgentId) :
    Option Action :=
  (actions i).bind (fun ai => ai j)

/-- Inner validation loop (lines 94-98): for each neighbor `j` of `i`, the
action must be present and in the C/D alphabet. -/
def validateAgent (ai : AgentId → Option Action) : List AgentId → Except String Unit
  | [] => Except.ok ()
  | j :: rest =>
    match ai j with
    | none => Except.error "Agent missing action toward neighbor"
    | some a =>
      if a = "C" ∨ a = "D" then validateAgent ai rest
      else Except.error "Invalid action"

/-- Outer validation loop (lines 91-98): every graph key must appear in
`actions`, and its sub-mapping must validate against its neighbor list. -/
def validateAll (actions : AgentId → Option (AgentId → Option Action)) :
    Graph → Except String Unit
  | [] => Except.ok ()
  | p :: rest =>
    match actions p.1 with
    | none => Except.error "Missing actions for agent"
    | some ai =>
      match validateAgent ai p.2 with
      | Except.error e => Except.error e
      | Except.ok _ => validateAll actions rest

/-- The sequence of undirected edges visited by the settlement loop
(lines 103-105): for each graph entry `i`, each neighbor `j` with `i < j`. -/
def edgeList : Graph → List (AgentId × AgentId)
  | [] => []
  | p :: rest =>
    (p.2.filter (fun j => decide (p.1 < j))).map (fun j => (p.1, j)) ++ edgeList rest

/-- One iteration of the settlement loop body (lines 106-110): look up the
two directed actions, evaluate the payoff matrix, and check that the second
endpoint is a delta-dict key (the `delta[j] += pj` lookup raises `KeyError`
for a neighbor that is not a graph key). -/
def edgeEval (m : PayoffMatrix) (keys : List AgentId)
    (actions : AgentId → Option (AgentId → Option Action)) (e : AgentId × AgentId) :
    Except String ((AgentId × AgentId) × (Int × Int)) :=
  match lookup2 actions e.1 e.2 with
  | none => Except.error "KeyError"
  | some a_ij =>
    match lookup2 actions e.2 e.1 with
    | none => Except.error "KeyError"
    | some a_ji =>
      match m.payoff a_ij a_ji with
      | Except.error err => Except.error err
      | Except.ok pq =>
        if e.2 ∈ keys then Except.ok (e, pq) else Except.error "KeyError"

/-- The full settlement loop: the list of payoff-matrix evaluations, one per
visited edge, stopping at the first error exactly as the Python loop does. -/
def payoffCalls (m : PayoffMatrix) (keys : List AgentId)
    (actions : AgentId → Option (AgentId → Option Action)) :
    List (AgentId × AgentId) → Except String (List ((AgentId × AgentId) × (Int × Int)))
  | [] => Except.ok []
  | e :: rest =>
    match edgeEval m keys actions e with
    | Except.error err => Except.error err
    | Except.ok c =>
      match payoffCalls m keys actions rest with
      | Except.error err => Except.error err
      | Except.ok cs => Except.ok (c :: cs)

/-- What one payoff evaluation contributes to agent `i`'s delta
(`delta[i] += pi; delta[j] += pj`, lines 109-110). -/
def indicatorContrib (c : (AgentId × AgentId) × (Int × Int)) (i : AgentId) : Int :=
  (if c.1.1 = i then c.2.1 else 0) + (if c.1.2 = i then c.2.2 else 0)

/-- The per-round delta dict (lines 100-110): accumulated payoff credits,
with key set the graph keys. -/
def pdDelta (keys : List AgentId) (calls : List ((AgentId × AgentId) × (Int × Int))) :
    AgentId → Int :=
  fun i => if i ∈ keys then (calls.map (fun c => indicatorContrib c i)).sum else 0

/-- The wealth dict after `self.wealth[i] += delta[i]` (lines 113-114). -/
def pdNewWealth (keys : List AgentId) (wealth : AgentId → Int)
    (calls : List ((AgentId × AgentId) × (Int × Int))) : AgentId → Int :=
  fun i => if i ∈ keys then wealth i + pdDelta keys calls i else wealth i

/-- The wholesale replacement of the directed `last_actions` store
(lines 117-121). -/
def pdNewLast (g : Graph) (actions : AgentId → Option (AgentId → Option Action)) :
    AgentId × AgentId → Option Action :=
  fun p =>
    match adj g p.1 with
    | some ns => if p.2 ∈ ns then lookup2 actions p.1 p.2 else none
    | none => none

/-- `Gameworld.apply_actions` (lines 83-130): validate, settle every
undirected edge once, update wealth, replace `last_actions` wholesale,
increment `t`, and return the tick.  On error the state is returned
unchanged (all raises occur before the assignments at lines 112-129). -/
def Gameworld.apply_actions (w : Gameworld)
    (actions : AgentId → Option (AgentId → Option Action)) :
    Except String TickResult × Gameworld :=
  match validateAll actions w.graph with
  | Except.error e => (Except.error e, w)
  | Except.ok _ =>
    match payoffCalls w.payoff (w.graph.map Prod.fst) actions (edgeList w.graph) with
    | Except.error e => (Except.error e, w)
    | Except.ok calls =>
      (Except.ok
        { round := w.t, actions := actions,
          delta_payoff := pdDelta (w.graph.map Prod.fst) calls,
          wealth := pdNewWealth (w.graph.map Prod.fst) w.wealth calls },
        { graph := w.graph, payoff := w.payoff,
          wealth := pdNewWealth (w.graph.map Prod.fst) w.wealth calls,
          last_actions := pdNewLast w.graph actions, t := w.t + 1 })

/-! ## OpenResourcesGameWorld (gameworld.py lines 133-390) -/

/-- `OpenResourcesConfig` (lines 133-153), defaults as in the dataclass.
The spec's data model declares `agent_ids` a set of agent ids; it is stored
as the construction-order list. -/
structure OpenResourcesConfig where
  agent_ids : List AgentId
  initial_resource : Rat := 100
  initial_pool : Rat := 0
  initial_wealth : Rat := 0
  max_harvest_per_step : Rat := 1000000
  resource_cap : Option Rat := none
  regen_rate : Rat := 5 / 100
  regen_mode : String := "logistic"
  governance_reward_rate : Rat := 0
  reward_mode : String := "proportional"
  collapse_threshold : Rat := 0

/-- `OpenResourcesAction` (lines 156-160). -/
structure OpenResourcesAction where
  harvest : Rat
  contribute : Rat
deriving Repr, DecidableEq

/-- Mutable `OpenResourcesState` (lines 203-210). -/
structure OpenResourcesState where
  t : Nat
  R : Rat
  P : Rat
  wealth : AgentId → Rat

/-- `OpenResourcesTick` (lines 181-200).  The per-agent dicts are modelled
as restricted functions; the two booleans of each `clamped[agent_id]` entry
are split into two fields; the entries of the `info` dict that carry data
(`H_req`, `H_act`, `allocation_scale`, `regen_mode`, `R_mid`, `collapsed`)
are lifted to fields. -/
structure OpenResourcesTick where
  t : Nat
  R_before : Rat
  R_after : Rat
  P_before : Rat
  P_after : Rat
  harvest_requested : AgentId → Rat
  harvest_actual : AgentId → Rat
  contribute : AgentId → Rat
  reward : AgentId → Rat
  wealth : AgentId → Rat
  clamped_harvest : AgentId → Bool
  clamped_contribute : AgentId → Bool
  H_req : Rat
  H_act : Rat
  allocation_scale : Rat
  regen_mode : String
  R_mid : Rat
  collapsed : Bool

/-- Restrict a per-agent map to a key list (`0` outside), modelling a dict
whose key set is exactly the agent ids. -/
def restrict (ids : List AgentId) (f : AgentId → Rat) : AgentId → Rat :=
  fun a => if a ∈ ids then f a else 0

/-- Boolean variant of `restrict` (`false` outside the key set). -/
def restrictB (ids : List AgentId) (f : AgentId → Bool) : AgentId → Bool :=
  fun a => if a ∈ ids then f a else false

/-- `OpenResourcesGameWorld.__init__` (lines 221-228). -/
def openInit (cfg : OpenResourcesConfig) : OpenResourcesState :=
  { t := 0, R := cfg.initial_resource, P := cfg.initial_pool,
    wealth := restrict cfg.agent_ids (fun _ => cfg.initial_wealth) }

/-- The key set of the per-agent dicts built by iterating over
`config.agent_ids` (duplicated ids overwrite their own entry). -/
def orIds (cfg : OpenResourcesConfig) : List AgentId :=
  cfg.agent_ids.dedup

/-- Clamped harvest request (line 274):
`min(max(0.0, requested_harvest), max_harvest_per_step)`. -/
def clampH (cfg : OpenResourcesConfig) (raw : AgentId → OpenResourcesAction)
    (a : AgentId) : Rat :=
  min (max 0 (raw a).harvest) cfg.max_harvest_per_step

/-- Clamped contribution (line 275):
`min(max(0.0, requested_contribute), wealth_now)` with `wealth_now` the
pre-step wealth. -/
def clampC (s : OpenResourcesState) (raw : AgentId → OpenResourcesAction)
    (a : AgentId) : Rat :=
  min (max 0 (raw a).contribute) (s.wealth a)

/-- `total_contrib = sum(contribute.values())` (line 312). -/
def totalContrib (cfg : OpenResourcesConfig) (s : OpenResourcesState)
    (raw : AgentId → OpenResourcesAction) : Rat :=
  ((orIds cfg).map (clampC s raw)).sum

/-- `p_after_contrib = p_before + sum(contribute.values())` (line 288). -/
def pAfterContrib (cfg : OpenResourcesConfig) (s : OpenResourcesState)
    (raw : AgentId → OpenResourcesAction) : Rat :=
  s.P + totalContrib cfg s raw

/-- `h_req = sum(harvest_requested.values())` (line 290). -/
def hReq (cfg : OpenResourcesConfig) (raw : AgentId → OpenResourcesAction) : Rat :=
  ((orIds cfg).map (clampH cfg raw)).sum

/-- `allocation_scale` (lines 291-298). -/
def allocScale (cfg : OpenResourcesConfig) (s : OpenResourcesState)
    (raw : AgentId → OpenResourcesAction) : Rat :=
  if hReq cfg raw = 0 then 0
  else if hReq cfg raw ≤ s.R then 1
  else s.R / hReq cfg raw

/-- `harvest_actual` (lines 291-302): zero demand gives zero harvests, demand
within stock is served in full, excess demand is scaled by `R / H_req`. -/
def harvestActual (cfg : OpenResourcesConfig) (s : OpenResourcesState)
    (raw : AgentId → OpenResourcesAction) : AgentId → Rat :=
  if hReq cfg raw = 0 then fun _ => 0
  else if hReq cfg raw ≤ s.R then clampH cfg raw
  else fun a => clampH cfg raw a * (s.R / hReq cfg raw)

/-- `h_act = sum(harvest_actual.values())` (line 304). -/
def hAct (cfg : OpenResourcesConfig) (s : OpenResourcesState)
    (raw : AgentId → OpenResourcesAction) : Rat :=
  ((orIds cfg).map (harvestActual cfg s raw)).sum

/-- `r_mid = max(0.0, r_before - h_act)` (line 305). -/
def rMid (cfg : OpenResourcesConfig) (s : OpenResourcesState)
    (raw : AgentId → OpenResourcesAction) : Rat :=
  max 0 (s.R - hAct cfg s raw)

/-- Wealth after the contribution step (lines 284-287). -/
def wealthAfterContrib (s : OpenResourcesState) (raw : AgentId → OpenResourcesAction)
    (a : AgentId) : Rat :=
  s.wealth a - clampC s raw a

/-- Wealth after the harvest credit (lines 307-310). -/
def wealthAfterHarvest (cfg : OpenResourcesConfig) (s : OpenResourcesState)
    (raw : AgentId → OpenResourcesAction) (a : AgentId) : Rat :=
  wealthAfterContrib s raw a + harvestActual cfg s raw a

/-- `eligible_agents` of the "equal" reward mode (lines 323-325): the list
comprehension over `config.agent_ids`. -/
def eligibleAgents (cfg : OpenResourcesConfig) (s : OpenResourcesState)
    (raw : AgentId → OpenResourcesAction) : List AgentId :=
  cfg.agent_ids.filter (fun a => decide (0 < clampC s raw a))

/-- `reward_budget = min(p_after_contrib, governance_reward_rate * total_contrib)`
(lines 318-321). -/
def rewardBudget (cfg : OpenResourcesConfig) (s : OpenResourcesState)
    (raw : AgentId → OpenResourcesAction) : Rat :=
  min (pAfterContrib cfg s raw) (cfg.governance_reward_rate * totalContrib cfg s raw)

/-- The governance-reward step (lines 313-339): gated on a positive reward
rate, positive post-contribution pool and positive total contribution; the
"equal" mode splits the budget over `eligible_agents`, the "proportional"
mode in proportion to each contribution, any other mode string raises. -/
def rewardE (cfg : OpenResourcesConfig) (s : OpenResourcesState)
    (raw : AgentId → OpenResourcesAction) : Except String (AgentId → Rat) :=
  if 0 < cfg.governance_reward_rate ∧ 0 < pAfterContrib cfg s raw ∧
      0 < totalContrib cfg s raw then
    if cfg.reward_mode = "equal" then
      let per :=
        if (eligibleAgents cfg s raw).length = 0 then 0
        else rewardBudget cfg s raw / ((eligibleAgents cfg s raw).length : Rat)
      Except.ok (fun a => if a ∈ eligibleAgents cfg s raw then per else 0)
    else if cfg.reward_mode = "proportional" then
      Except.ok (fun a => rewardBudget cfg s raw * (clampC s raw a / totalContrib cfg s raw))
    else Except.error "Unsupported reward mode"
  else Except.ok (fun _ => 0)

/-- `p_after_reward = p_after_contrib - sum(reward.values())` (line 341). -/
def pAfterReward (cfg : OpenResourcesConfig) (s : OpenResourcesState)
    (raw : AgentId → OpenResourcesAction) (reward : AgentId → Rat) : Rat :=
  pAfterContrib cfg s raw - ((orIds cfg).map reward).sum

/-- Wealth after the reward credit (lines 342-345). -/
def wealthAfterReward (cfg : OpenResourcesConfig) (s : OpenResourcesState)
    (raw : AgentId → OpenResourcesAction) (reward : AgentId → Rat) (a : AgentId) : Rat :=
  wealthAfterHarvest cfg s raw a + reward a

/-- The carrying capacity (lines 347-351): the explicit `resource_cap`, or
`max(initial_resource, 1.0)` when unset. -/
def capOf (cfg : OpenResourcesConfig) : Rat :=
  match cfg.resource_cap with
  | some c => c
  | none => max cfg.initial_resource 1

/-- The regeneration step (lines 352-358).  In logistic mode the source
divides by `cap`, which raises `ZeroDivisionError` when `cap == 0`. -/
def regenE (cfg : OpenResourcesConfig) (s : OpenResourcesState)
    (raw : AgentId → OpenResourcesAction) : Except String Rat :=
  if cfg.regen_mode = "logistic" then
    if capOf cfg = 0 then Except.error "float division by zero"
    else Except.ok (cfg.regen_rate * rMid cfg s raw * (1 - rMid cfg s raw / capOf cfg))
  else if cfg.regen_mode = "linear" then
    Except.ok (cfg.regen_rate * (capOf cfg - rMid cfg s raw))
  else Except.error "Unsupported regen mode"

/-- `r_after = min(cap, max(0.0, r_mid + regen_delta))` (line 360). -/
def rAfterOf (cfg : OpenResourcesConfig) (s : OpenResourcesState)
    (raw : AgentId → OpenResourcesAction) (regen_delta : Rat) : Rat :=
  min (capOf cfg) (max 0 (rMid cfg s raw + regen_delta))

/-- The tick built at lines 367-389. -/
def openTickOf (cfg : OpenResourcesConfig) (s : OpenResourcesState)
    (raw : AgentId → OpenResourcesAction) (reward : AgentId → Rat)
    (regen_delta : Rat) : OpenResourcesTick :=
  { t := s.t
    R_before := s.R
    R_after := rAfterOf cfg s raw regen_delta
    P_before := s.P
    P_after := pAfterReward cfg s raw reward
    harvest_requested := restrict cfg.agent_ids (clampH cfg raw)
    harvest_actual := restrict cfg.agent_ids (harvestActual cfg s raw)
    contribute := restrict cfg.agent_ids (clampC s raw)
    reward := restrict cfg.agent_ids reward
    wealth := restrict cfg.agent_ids (wealthAfterReward cfg s raw reward)
    clamped_harvest :=
      restrictB cfg.agent_ids (fun a => decide (clampH cfg raw a ≠ (raw a).harvest))
    clamped_contribute :=
      restrictB cfg.agent_ids (fun a => decide (clampC s raw a ≠ (raw a).contribute))
    H_req := hReq cfg raw
    H_act := hAct cfg s raw
    allocation_scale := allocScale cfg s raw
    regen_mode := cfg.regen_mode
    R_mid := rMid cfg s raw
    collapsed := decide (rAfterOf cfg s raw regen_delta ≤ cfg.collapse_threshold) }

/-- The committed state (lines 362-365). -/
def openStateOf (cfg : OpenResourcesConfig) (s : OpenResourcesState)
    (raw : AgentId → OpenResourcesAction) (reward : AgentId → Rat)
    (regen_delta : Rat) : OpenResourcesState :=
  { t := s.t + 1
    R := rAfterOf cfg s raw regen_delta
    P := pAfterReward cfg s raw reward
    wealth := restrict cfg.agent_ids (wealthAfterReward cfg s raw reward) }

/-- The settlement pipeline after the per-agent read loop: reward step, then
regeneration, then commit.  Raises propagate with the state untouched. -/
def openApplyCore (cfg : OpenResourcesConfig) (raw : AgentId → OpenResourcesAction)
    (s : OpenResourcesState) : Except String OpenResourcesTick × OpenResourcesState :=
  match rewardE cfg s raw with
  | Except.error e => (Except.error e, s)
  | Except.ok reward =>
    match regenE cfg s raw with
    | Except.error e => (Except.error e, s)
    | Except.ok regen_delta =>
      (Except.ok (openTickOf cfg s raw reward regen_delta),
        openStateOf cfg s raw reward regen_delta)

/-- The per-agent action values read by the loop at lines 260-270: only the
entries keyed by configured agent ids are ever read; a missing configured
agent raises (line 262). -/
def rawOf (cfg : OpenResourcesConfig)
    (actions : AgentId → Option OpenResourcesAction) : AgentId → OpenResourcesAction :=
  fun a =>
    if a ∈ cfg.agent_ids then (actions a).getD { harvest := 0, contribute := 0 }
    else { harvest := 0, contribute := 0 }

/-- `OpenResourcesGameWorld.apply_actions` (lines 244-390). -/
def openApplyActions (cfg : OpenResourcesConfig)
    (actions : AgentId → Option OpenResourcesAction) (s : OpenResourcesState) :
    Except String OpenResourcesTick × OpenResourcesState :=
  match cfg.agent_ids.find? (fun a => (actions a).isNone) with
  | some _ => (Except.error "Missing action for agent", s)
  | none => openApplyCore cfg (rawOf cfg actions) s

/-- Reachability by construction plus successful settlement calls. -/
inductive ReachableOR (cfg : OpenResourcesConfig) : OpenResourcesState → Prop
  | init : ReachableOR cfg (openInit cfg)
  | step (s s2 : OpenResourcesState) (actions : AgentId → Option OpenResourcesAction)
      (tick : OpenResourcesTick) : ReachableOR cfg s →
      openApplyActions cfg actions s = (Except.ok tick, s2) → ReachableOR cfg s2

/-! ## Analytics (analytics.py) -/

/-- `collapse_time` (analytics.py lines 41-46): first tick whose `collapsed`
diagnostic is truthy, else `None`. -/
def collapse_time : List OpenResourcesTick → Option Nat
  | [] => none
  | tk :: rest => if tk.collapsed then some tk.t else collapse_time rest

/-- The `enumerate(xs_sorted, start=1)` weighted sum of `gini`
(analytics.py lines 61-63). -/
def weightedSum : Nat → List Rat → Rat
  | _, [] => 0
  | i, x :: rest => (i : Rat) * x + weightedSum (i + 1) rest

/-- `gini` (analytics.py lines 49-66): sorted-weighted-sum formulation,
clamped into [0, 1]; 0 for the empty list or zero total. -/
def gini (values : List Rat) : Rat :=
  if values = [] then 0
  else
    let n := values.length
    let total := values.sum
    if n = 0 ∨ total = 0 then 0
    else
      let xs_sorted := List.insertionSort (· ≤ ·) values
      let g := 2 * weightedSum 1 xs_sorted / ((n : Rat) * total) - ((n : Rat) + 1) / (n : Rat)
      max 0 (min 1 g)

/-! ## Tick observables (sums over the per-agent dicts of a returned tick) -/

/-- Total contribution recorded in a tick (sum of the `contribute` dict). -/
def tickContribTotal (cfg : OpenResourcesConfig) (tick : OpenResourcesTick) : Rat :=
  (cfg.agent_ids.map tick.contribute).sum

/-- Total reward recorded in a tick (sum of the `reward` dict). -/
def tickRewardTotal (cfg : OpenResourcesConfig) (tick : OpenResourcesTick) : Rat :=
  (cfg.agent_ids.map tick.reward).sum

/-- The pool right after contributions were added, reconstructed from a tick. -/
def tickPoolAfterContrib (cfg : OpenResourcesConfig) (tick : OpenResourcesTick) : Rat :=
  tick.P_before + tickContribTotal cfg tick

/-- The reward budget of the tick's governance step:
`min(pool after contributions, governance_reward_rate * total contributions)`. -/
def tickBudget (cfg : OpenResourcesConfig) (tick : OpenResourcesTick) : Rat :=
  min (tickPoolAfterContrib cfg tick)
    (cfg.governance_reward_rate * tickContribTotal cfg tick)

/-- Number of agents recorded with strictly positive contribution. -/
def tickEligibleCount (cfg : OpenResourcesConfig) (tick : OpenResourcesTick) : Nat :=
  (cfg.agent_ids.filter (fun a => decide (0 < tick.contribute a))).length

/-! ## Concrete fixtures used by witnesses and counterexamples -/

/-- Spec scenario A: two agents, stock 10, harvest cap 10, no regeneration. -/
def cfgScarce : OpenResourcesConfig :=
  { agent_ids := [0, 1], initial_resource := 10, max_harvest_per_step := 10,
    regen_rate := 0 }

/-- A governance configuration: reward rate 1, proportional mode, wealth 10. -/
def cfgGov : OpenResourcesConfig :=
  { agent_ids := [0, 1], initial_wealth := 10, governance_reward_rate := 1 }

/-- Minimal one-agent configuration with all defaults. -/
def cfgOne : OpenResourcesConfig := { agent_ids := [0] }

/-- Configuration whose fresh stock exceeds its explicit capacity. -/
def cfgOverCap : OpenResourcesConfig :=
  { agent_ids := [0], initial_resource := 200, resource_cap := some 100 }

/-- Configuration with a negative initial stock. -/
def cfgNegR : OpenResourcesConfig := { agent_ids := [0], initial_resource := -1 }

/-- A state with negative resource stock but non-negative pool and wealth. -/
def stNegR : OpenResourcesState := { t := 0, R := -10, P := 0, wealth := fun _ => 0 }

/-- Configuration with a negative per-step harvest cap. -/
def cfgNegMax : OpenResourcesConfig :=
  { agent_ids := [0], max_harvest_per_step := -5 }

/-- Every agent requests (harvest 0, contribute 0). -/
def actZero : AgentId → Option OpenResourcesAction :=
  fun _ => some { harvest := 0, contribute := 0 }

/-- Every agent requests (harvest 10, contribute 0). -/
def actTen : AgentId → Option OpenResourcesAction :=
  fun _ => some { harvest := 10, contribute := 0 }

/-- Like `actTen` on agents 0 and 1, junk elsewhere. -/
def actTenJunk : AgentId → Option OpenResourcesAction :=
  fun i => if i = 0 ∨ i = 1 then some { harvest := 10, contribute := 0 }
           else some { harvest := 99, contribute := 99 }

/-- Agent 0 requests harvest 5; used against a negative-stock state. -/
def actFive : AgentId → Option OpenResourcesAction :=
  fun _ => some { harvest := 5, contribute := 0 }

/-- Agent 0 contributes 3, agent 1 contributes 2, no harvesting. -/
def actContrib : AgentId → Option OpenResourcesAction :=
  fun i => some { harvest := 0, contribute := if i = 0 then 3 else 2 }

/-- Two-agent PD world on the single edge 0—1, default payoff matrix. -/
def wPD : Gameworld :=
  { graph := [(0, [1]), (1, [0])], payoff := {}, wealth := fun _ => 0,
    last_actions := fun _ => none, t := 0 }

/-- Joint PD action: both agents cooperate toward each other. -/
def actPD : AgentId → Option (AgentId → Option Action) :=
  fun i => if i = 0 then some (fun j => if j = 1 then some "C" else none)
           else if i = 1 then some (fun j => if j = 0 then some "C" else none)
           else none

/-! ## Helper lemmas -/

theorem restrict_mem {ids : List AgentId} {f : AgentId → Rat} {a : AgentId}
    (h : a ∈ ids) : restrict ids f a = f a := if_pos h

theorem restrictB_mem {ids : List AgentId} {f : AgentId → Bool} {a : AgentId}
    (h : a ∈ ids) : restrictB ids f a = f a := if_pos h

theorem mem_orIds {cfg : OpenResourcesConfig} {a : AgentId} :
    a ∈ orIds cfg ↔ a ∈ cfg.agent_ids := List.mem_dedup

theorem find?_congr_of_mem {α : Type} {p q : α → Bool} :
    ∀ (l : List α), (∀ x ∈ l, p x = q x) → l.find? p = l.find? q := by
  intro l
  induction l with
  | nil => intro _; rfl
  | cons x xs ih =>
    intro h
    have hx := h x (List.mem_cons_self x xs)
    cases hqx : q x with
    | true =>
      rw [List.find?_cons_of_pos _ (by rw [hx, hqx]), List.find?_cons_of_pos _ hqx]
    | false =>
      rw [List.find?_cons_of_neg _ (by rw [hx, hqx]; simp),
        List.find?_cons_of_neg _ (by rw [hqx]; simp)]
      exact ih (fun y hy => h y (List.mem_cons_of_mem _ hy))

/-- Inversion of a successful Open Resources settlement: the reward and
regeneration steps succeeded and the returned tick and committed state have
the canonical shapes. -/
theorem openApplyActions_ok {cfg : OpenResourcesConfig}
    {actions : AgentId → Option OpenResourcesAction} {s : OpenResourcesState}
    {tick : OpenResourcesTick} {s2 : OpenResourcesState}
    (h : openApplyActions cfg actions s = (Except.ok tick, s2)) :
    ∃ reward regen_delta,
      rewardE cfg s (rawOf cfg actions) = Except.ok reward ∧
      regenE cfg s (rawOf cfg actions) = Except.ok regen_delta ∧
      tick = openTickOf cfg s (rawOf cfg actions) reward regen_delta ∧
      s2 = openStateOf cfg s (rawOf cfg actions) reward regen_delta := by
  unfold openApplyActions at h
  cases hf : cfg.agent_ids.find? (fun a => (actions a).isNone) with
  | some a => rw [hf] at h; simp at h
  | none =>
    rw [hf] at h
    unfold openApplyCore at h
    cases hr : rewardE cfg s (rawOf cfg actions) with
    | error e => rw [hr] at h; simp at h
    | ok reward =>
      rw [hr] at h
      cases hg : regenE cfg s (rawOf cfg actions) with
      | error e => rw [hg] at h; simp at h
      | ok regen_delta =>
        rw [hg] at h
        simp only [Prod.mk.injEq, Except.ok.injEq] at h
        exact ⟨reward, regen_delta, rfl, rfl, h.1.symm, h.2.symm⟩

/-! ## Claim C3 -/

/-- C3: if `apply_actions` raises (missing agent key, missing neighbor key or
invalid action value for the PD world; missing agent or unsupported
reward/regen mode for the Open Resources world), the entire mutable world
state is unchanged: settlement is atomic validate-then-apply. -/
theorem claim_c3_atomic_validate_then_apply :
    (∀ (w : Gameworld) (actions : AgentId → Option (AgentId → Option Action)) (e : String),
        (Gameworld.apply_actions w actions).1 = Except.error e →
        (Gameworld.apply_actions w actions).2 = w) ∧
    (∀ (cfg : OpenResourcesConfig) (actions : AgentId → Option OpenResourcesAction)
        (s : OpenResourcesState) (e : String),
        (openApplyActions cfg actions s).1 = Except.error e →
        (openApplyActions cfg actions s).2 = s) := by
  constructor
  · intro w actions e h
    unfold Gameworld.apply_actions at h ⊢
    cases hv : validateAll actions w.graph with
    | error e2 => simp only [hv]
    | ok u =>
      simp only [hv] at h ⊢
      cases hp : payoffCalls w.payoff (w.graph.map Prod.fst) actions (edgeList w.graph) with
      | error e2 => simp only [hp]
      | ok calls =>
        simp only [hp] at h
        exact Except.noConfusion h
  · intro cfg actions s e h
    unfold openApplyActions at h ⊢
    cases hf : cfg.agent_ids.find? (fun a => (actions a).isNone) with
    | some a => simp only [hf]
    | none =>
      simp only [hf] at h ⊢
      unfold openApplyCore at h ⊢
      cases hr : rewardE cfg s (rawOf cfg actions) with
      | error e2 => simp only [hr]
      | ok reward =>
        simp only [hr] at h ⊢
        cases hg : regenE cfg s (rawOf cfg actions) with
        | error e2 => simp only [hg]
        | ok regen_delta =>
          simp only [hg] at h
          exact Except.noConfusion h

/-- C3 witness: a PD call with an empty action mapping and an Open Resources
call with an empty action mapping both fail and leave the state unchanged. -/
theorem claim_c3_witness :
    (Gameworld.apply_actions wPD (fun _ => none)).1 =
        Except.error "Missing actions for agent" ∧
    (Gameworld.apply_actions wPD (fun _ => none)).2 = wPD ∧
    (openApplyActions cfgOne (fun _ => none) (openInit cfgOne)).1 =
        Except.error "Missing action for agent" ∧
    (openApplyActions cfgOne (fun _ => none) (openInit cfgOne)).2 = openInit cfgOne :=
  ⟨rfl, claim_c3_atomic_validate_then_apply.1 wPD (fun _ => none) _ rfl, rfl,
    claim_c3_atomic_validate_then_apply.2 cfgOne (fun _ => none) (openInit cfgOne) _ rfl⟩

/-! ## Claim C10 -/

/-- C10: `OpenResourcesGameWorld.apply_actions` reads only the action entries
keyed by configured agent ids: two mappings that agree on every configured id
produce identical results, so extra entries for unknown agents are silently
ignored. -/
theorem claim_c10_extra_action_keys_ignored (cfg : OpenResourcesConfig)
    (s : OpenResourcesState) (a1 a2 : AgentId → Option OpenResourcesAction)
    (hagree : ∀ i ∈ cfg.agent_ids, a1 i = a2 i) :
    openApplyActions cfg a1 s = openApplyActions cfg a2 s := by
  have hraw : rawOf cfg a1 = rawOf cfg a2 := by
    funext a
    unfold rawOf
    by_cases hm : a ∈ cfg.agent_ids
    · simp only [hm, if_true, hagree a hm]
    · simp only [hm, if_false]
  unfold openApplyActions
  rw [find?_congr_of_mem cfg.agent_ids (fun i hi => by rw [hagree i hi]), hraw]

/-- C10 witness: the two-agent scarcity call gives the same tick and state
whether or not the mapping carries junk entries for unknown agents. -/
theorem claim_c10_witness :
    (∀ i ∈ cfgScarce.agent_ids, actTen i = actTenJunk i) ∧
    openApplyActions cfgScarce actTen (openInit cfgScarce) =
      openApplyActions cfgScarce actTenJunk (openInit cfgScarce) :=
  ⟨by decide, claim_c10_extra_action_keys_ignored cfgScarce (openInit cfgScarce)
    actTen actTenJunk (by decide)⟩

/-! ## Claim C7 -/

/-- C7: a successful settlement flags collapse exactly when the post-step
stock is at most the configured threshold, and `collapse_time` returns the
round index of the first collapsed tick (`none` when no tick collapsed). -/
theorem claim_c7_collapse_flag_and_time :
    (∀ (cfg : OpenResourcesConfig) (actions : AgentId → Option OpenResourcesAction)
        (s : OpenResourcesState) (tick : OpenResourcesTick) (s2 : OpenResourcesState),
        openApplyActions cfg actions s = (Except.ok tick, s2) →
        (tick.collapsed = true ↔ tick.R_after ≤ cfg.collapse_threshold)) ∧
    (∀ ticks : List OpenResourcesTick,
      ((∀ tk ∈ ticks, tk.collapsed = false) → collapse_time ticks = none) ∧
      (∀ (i : Nat) (hi : i < ticks.length), (ticks.get ⟨i, hi⟩).collapsed = true →
        (∀ (j : Nat) (hj : j < i), (ticks.get ⟨j, Nat.lt_trans hj hi⟩).collapsed = false) →
        collapse_time ticks = some (ticks.get ⟨i, hi⟩).t)) := by
  constructor
  · intro cfg actions s tick s2 h
    obtain ⟨reward, regen_delta, _, _, htick, _⟩ := openApplyActions_ok h
    subst htick
    simp [openTickOf]
  · intro ticks
    induction ticks with
    | nil =>
      refine ⟨fun _ => rfl, fun i hi => absurd hi (Nat.not_lt_zero i)⟩
    | cons tk rest ih =>
      constructor
      · intro hall
        have h0 : tk.collapsed = false := hall tk (List.mem_cons_self _ _)
        simp only [collapse_time, h0, Bool.false_eq_true, if_false]
        exact ih.1 (fun x hx => hall x (List.mem_cons_of_mem _ hx))
      · intro i hi hflag hmin
        cases i with
        | zero =>
          simp only [List.get] at hflag ⊢
          simp [collapse_time, hflag]
        | succ n =>
          have h0 : tk.collapsed = false := by
            have := hmin 0 (Nat.succ_pos n)
            simpa [List.get] using this
          simp only [collapse_time, h0, Bool.false_eq_true, if_false, List.get]
          exact ih.2 n (Nat.lt_of_succ_lt_succ hi) (by simpa [List.get] using hflag)
            (fun j hj => by simpa [List.get] using hmin (j + 1) (Nat.succ_lt_succ hj))

/-- C7 witness: a concrete non-collapsing call satisfies the flag equivalence,
and `collapse_time` of the empty history is `none`. -/
theorem claim_c7_witness :
    ∃ tick s2, openApplyActions cfgOne actZero (openInit cfgOne) = (Except.ok tick, s2) ∧
      (tick.collapsed = true ↔ tick.R_after ≤ cfgOne.collapse_threshold) ∧
      collapse_time [] = none :=
  ⟨_, _, rfl,
    claim_c7_collapse_flag_and_time.1 cfgOne actZero (openInit cfgOne) _ _ rfl,
    (claim_c7_collapse_flag_and_time.2 []).1 (fun _ hx => absurd hx (List.not_mem_nil _))⟩

/-! ## Claim C6 -/

/-- C6: in a successful settlement, the recorded harvest request is the raw
request clamped by `[0, max_harvest_per_step]`, the recorded contribution is
the raw contribution clamped by `[0, wealth at the start of the step]`, and
the two clamp flags are true exactly when clamping changed the value. -/
theorem claim_c6_clamping (cfg : OpenResourcesConfig)
    (actions : AgentId → Option OpenResourcesAction) (s : OpenResourcesState)
    (tick : OpenResourcesTick) (s2 : OpenResourcesState) (i : AgentId)
    (act : OpenResourcesAction) (hmem : i ∈ cfg.agent_ids) (hact : actions i = some act)
    (h : openApplyActions cfg actions s = (Except.ok tick, s2)) :
    tick.harvest_requested i = min (max 0 act.harvest) cfg.max_harvest_per_step ∧
    tick.contribute i = min (max 0 act.contribute) (s.wealth i) ∧
    (tick.clamped_harvest i = true ↔ tick.harvest_requested i ≠ act.harvest) ∧
    (tick.clamped_contribute i = true ↔ tick.contribute i ≠ act.contribute) := by
  obtain ⟨reward, regen_delta, _, _, htick, _⟩ := openApplyActions_ok h
  subst htick
  have hraw : rawOf cfg actions i = act := by
    unfold rawOf
    rw [if_pos hmem, hact]
    rfl
  refine ⟨?_, ?_, ?_, ?_⟩
  · simp [openTickOf, restrict_mem hmem, clampH, hraw]
  · simp [openTickOf, restrict_mem hmem, clampC, hraw]
  · simp [openTickOf, restrict_mem hmem, restrictB_mem hmem, hraw]
  · simp [openTickOf, restrict_mem hmem, restrictB_mem hmem, hraw]

/-- C6 witness: agent 0 of the scarcity scenario requests harvest 10 with cap
10 and contribution 0 with wealth 0; neither clamp flag fires. -/
theorem claim_c6_witness :
    ∃ tick s2, openApplyActions cfgScarce actTen (openInit cfgScarce) = (Except.ok tick, s2) ∧
      tick.harvest_requested 0 =
        min (max 0 (10 : Rat)) cfgScarce.max_harvest_per_step ∧
      tick.contribute 0 = min (max 0 (0 : Rat)) ((openInit cfgScarce).wealth 0) ∧
      (tick.clamped_harvest 0 = true ↔ tick.harvest_requested 0 ≠ (10 : Rat)) :=
  ⟨_, _, rfl,
    (claim_c6_clamping cfgScarce actTen (openInit cfgScarce) _ _ 0
      { harvest := 10, contribute := 0 } (by decide) rfl rfl).1,
    (claim_c6_clamping cfgScarce actTen (openInit cfgScarce) _ _ 0
      { harvest := 10, contribute := 0 } (by decide) rfl rfl).2.1,
    (claim_c6_clamping cfgScarce actTen (openInit cfgScarce) _ _ 0
      { harvest := 10, contribute := 0 } (by decide) rfl rfl).2.2.1⟩

/-! ## Claim C1 -/

theorem clampH_nonneg {cfg : OpenResourcesConfig} {raw : AgentId → OpenResourcesAction}
    (hm : 0 ≤ cfg.max_harvest_per_step) (a : AgentId) : 0 ≤ clampH cfg raw a :=
  le_min (le_max_left 0 _) hm

theorem clampH_of_max_neg {cfg : OpenResourcesConfig} {raw : AgentId → OpenResourcesAction}
    (hm : cfg.max_harvest_per_step < 0) (a : AgentId) :
    clampH cfg raw a = cfg.max_harvest_per_step :=
  min_eq_right (le_trans hm.le (le_max_left 0 _))

theorem max_nonneg_of_hReq_pos {cfg : OpenResourcesConfig}
    {raw : AgentId → OpenResourcesAction} (h : 0 < hReq cfg raw) :
    0 ≤ cfg.max_harvest_per_step := by
  by_contra hneg
  push_neg at hneg
  have hconst : hReq cfg raw = ((orIds cfg).length : Rat) * cfg.max_harvest_per_step := by
    unfold hReq
    rw [List.map_congr_left (fun a _ => clampH_of_max_neg hneg a)]
    rw [List.map_const', List.sum_replicate, nsmul_eq_mul]
  have : hReq cfg raw ≤ 0 := by
    rw [hconst]
    exact mul_nonpos_of_nonneg_of_nonpos (by positivity) hneg.le
  linarith

theorem max_neg_of_hReq_neg {cfg : OpenResourcesConfig}
    {raw : AgentId → OpenResourcesAction} (h : hReq cfg raw < 0) :
    cfg.max_harvest_per_step < 0 := by
  by_contra hpos
  push_neg at hpos
  have : 0 ≤ hReq cfg raw := by
    apply List.sum_nonneg
    intro x hx
    obtain ⟨a, _, rfl⟩ := List.mem_map.1 hx
    exact clampH_nonneg hpos a
  linarith

/-- Under scarcity, each scaled harvest is at most the request. -/
theorem harvest_scale_le {cfg : OpenResourcesConfig} {s : OpenResourcesState}
    {raw : AgentId → OpenResourcesAction} (hne : hReq cfg raw ≠ 0)
    (hlt : s.R < hReq cfg raw) (a : AgentId) :
    clampH cfg raw a * (s.R / hReq cfg raw) ≤ clampH cfg raw a := by
  rcases lt_or_gt_of_ne hne with hH | hH
  · have hm : cfg.max_harvest_per_step < 0 := max_neg_of_hReq_neg hH
    have hscale : 1 ≤ s.R / hReq cfg raw := (one_le_div_of_neg hH).mpr hlt.le
    have hca : clampH cfg raw a ≤ 0 := by rw [clampH_of_max_neg hm]; exact hm.le
    calc clampH cfg raw a * (s.R / hReq cfg raw) ≤ clampH cfg raw a * 1 :=
          mul_le_mul_of_nonpos_left hscale hca
      _ = clampH cfg raw a := mul_one _
  · have hm : 0 ≤ cfg.max_harvest_per_step := max_nonneg_of_hReq_pos hH
    have hscale : s.R / hReq cfg raw ≤ 1 := (div_le_one hH).mpr hlt.le
    exact mul_le_of_le_one_right (clampH_nonneg hm a) hscale

/-- C1 counterexample to the claim as stated: with a negative pre-step stock
and zero total demand, the condition `H_req > R_before` of the claim's third
case holds, yet the actual harvests sum to 0, not to `R_before`. -/
theorem claim_c1_counterexample :
    ∃ tick s2, openApplyActions cfgNegR actZero (openInit cfgNegR) = (Except.ok tick, s2) ∧
      tick.R_before < tick.H_req ∧ ¬ tick.H_act = tick.R_before :=
  ⟨_, _, rfl, by decide, by decide⟩

/-- C1 (amended): in a successful settlement, zero total demand gives zero
harvests and scale 0; positive demand within stock is served in full at
scale 1; and when demand is nonzero and exceeds stock, each actual harvest
is the request scaled by `R_before / H_req`, is at most the request, and the
actual harvests sum to exactly `R_before`. -/
theorem claim_c1_harvest_allocation (cfg : OpenResourcesConfig)
    (actions : AgentId → Option OpenResourcesAction) (s : OpenResourcesState)
    (tick : OpenResourcesTick) (s2 : OpenResourcesState)
    (h : openApplyActions cfg actions s = (Except.ok tick, s2)) :
    (tick.H_req = 0 → tick.allocation_scale = 0 ∧ ∀ i, tick.harvest_actual i = 0) ∧
    (0 < tick.H_req → tick.H_req ≤ tick.R_before →
      tick.allocation_scale = 1 ∧
      ∀ i, tick.harvest_actual i = tick.harvest_requested i) ∧
    (tick.H_req ≠ 0 → tick.R_before < tick.H_req →
      (∀ i, tick.harvest_actual i = tick.harvest_requested i * (tick.R_before / tick.H_req) ∧
        tick.harvest_actual i ≤ tick.harvest_requested i) ∧
      tick.H_act = tick.R_before) := by
  obtain ⟨reward, regen_delta, _, _, htick, _⟩ := openApplyActions_ok h
  subst htick
  simp only [openTickOf]
  refine ⟨?_, ?_, ?_⟩
  · intro h0
    constructor
    · simp [allocScale, h0]
    · intro i
      simp [harvestActual, h0, restrict]
  · intro h0 hle
    have hne : hReq cfg (rawOf cfg actions) ≠ 0 := ne_of_gt h0
    constructor
    · simp [allocScale, hne, hle]
    · intro i
      simp [harvestActual, hne, hle]
  · intro hne hlt
    have hnle : ¬ hReq cfg (rawOf cfg actions) ≤ s.R := not_le.mpr hlt
    have hform : harvestActual cfg s (rawOf cfg actions) =
        fun a => clampH cfg (rawOf cfg actions) a * (s.R / hReq cfg (rawOf cfg actions)) := by
      simp [harvestActual, hne, hnle]
    refine ⟨?_, ?_⟩
    · intro i
      by_cases hm : i ∈ cfg.agent_ids
      · rw [restrict_mem hm, restrict_mem hm, hform]
        exact ⟨rfl, harvest_scale_le hne hlt i⟩
      · simp [restrict, hm]
    · unfold hAct
      rw [hform]
      rw [List.sum_map_mul_right]
      have : ((orIds cfg).map (clampH cfg (rawOf cfg actions))).sum =
          hReq cfg (rawOf cfg actions) := rfl
      rw [this, mul_comm, div_mul_cancel₀ _ hne]

/-- C1 witness: the spec's scarcity scenario (two agents, stock 10, both
request 10) has `H_req = 20 > 10 = R_before`, and the amended claim applies. -/
theorem claim_c1_witness :
    ∃ tick s2, openApplyActions cfgScarce actTen (openInit cfgScarce) = (Except.ok tick, s2) ∧
      tick.H_req = 20 ∧ tick.R_before = 10 ∧
      ((tick.H_req ≠ 0 → tick.R_before < tick.H_req →
        (∀ i, tick.harvest_actual i = tick.harvest_requested i * (tick.R_before / tick.H_req) ∧
          tick.harvest_actual i ≤ tick.harvest_requested i) ∧
        tick.H_act = tick.R_before)) :=
  ⟨_, _, rfl, by decide, by decide,
    (claim_c1_harvest_allocation cfgScarce actTen (openInit cfgScarce) _ _ rfl).2.2⟩

/-! ## Claim C4 -/

/-- C4 counterexample to the claim as stated: the freshly constructed state
of a configuration whose initial stock exceeds its explicit capacity already
violates the upper bound, and a negative initial stock violates the lower
bound. -/
theorem claim_c4_counterexample :
    (ReachableOR cfgOverCap (openInit cfgOverCap) ∧
      ¬ (openInit cfgOverCap).R ≤ capOf cfgOverCap) ∧
    (ReachableOR cfgNegR (openInit cfgNegR) ∧ ¬ 0 ≤ (openInit cfgNegR).R) :=
  ⟨⟨ReachableOR.init, by decide⟩, ⟨ReachableOR.init, by decide⟩⟩

/-- C4 (amended): provided the configured initial stock lies within
`[0, cap]` (always true for the default capacity with a non-negative initial
stock), every reachable state — the fresh state included — has
`R ∈ [0, cap]`, for any regeneration mode and any inputs. -/
theorem claim_c4_resource_bounds (cfg : OpenResourcesConfig)
    (h0 : 0 ≤ cfg.initial_resource) (hcap : cfg.initial_resource ≤ capOf cfg) :
    ∀ s, ReachableOR cfg s → 0 ≤ s.R ∧ s.R ≤ capOf cfg := by
  have hcap0 : 0 ≤ capOf cfg := le_trans h0 hcap
  intro s hs
  induction hs with
  | init => exact ⟨h0, hcap⟩
  | step s1 s2 actions tick hreach heq ih =>
    obtain ⟨reward, regen_delta, _, _, _, hstate⟩ := openApplyActions_ok heq
    subst hstate
    refine ⟨?_, ?_⟩
    · exact le_min hcap0 (le_max_left 0 _)
    · exact min_le_left _ _

/-- C4 witness: the default one-agent configuration satisfies the amended
hypotheses and its fresh state obeys the bounds. -/
theorem claim_c4_witness :
    (0 : Rat) ≤ cfgOne.initial_resource ∧ cfgOne.initial_resource ≤ capOf cfgOne ∧
    (0 ≤ (openInit cfgOne).R ∧ (openInit cfgOne).R ≤ capOf cfgOne) :=
  ⟨by decide, by decide,
    claim_c4_resource_bounds cfgOne (by decide) (by decide) _ ReachableOR.init⟩

/-! ## Claim C8 -/

theorem weightedSum_replicate (a : Rat) :
    ∀ (n k : Nat), weightedSum k (List.replicate n a) =
      a * ((n : Rat) * (k : Rat) + (n : Rat) * ((n : Rat) - 1) / 2) := by
  intro n
  induction n with
  | zero => intro k; simp [weightedSum]
  | succ m ih =>
    intro k
    rw [List.replicate_succ]
    show (k : Rat) * a + weightedSum (k + 1) (List.replicate m a) = _
    rw [ih (k + 1)]
    push_cast
    ring

/-- The generic non-degenerate branch of `gini`. -/
theorem gini_eq_of {xs : List Rat} (h1 : xs ≠ []) (h2 : xs.sum ≠ 0) :
    gini xs = max 0 (min 1
      (2 * weightedSum 1 (List.insertionSort (· ≤ ·) xs) / ((xs.length : Rat) * xs.sum) -
        ((xs.length : Rat) + 1) / (xs.length : Rat))) := by
  unfold gini
  rw [if_neg h1]
  dsimp only
  rw [if_neg (by push_neg; exact ⟨by simpa using h1, h2⟩)]

/-- C8: `gini` lands in `[0, 1]` on non-negative inputs, is `0` on the empty
list, is `0` whenever the total is zero, and is `0` on every uniform positive
wealth vector. -/
theorem claim_c8_gini_range_and_uniform :
    (∀ xs : List Rat, (∀ x ∈ xs, 0 ≤ x) → 0 ≤ gini xs ∧ gini xs ≤ 1) ∧
    gini [] = 0 ∧
    (∀ xs : List Rat, xs.sum = 0 → gini xs = 0) ∧
    (∀ (n : Nat) (a : Rat), 0 < a → gini (List.replicate n a) = 0) := by
  have hzero : ∀ xs : List Rat, xs.sum = 0 → gini xs = 0 := by
    intro xs h
    unfold gini
    split
    · rfl
    · dsimp only
      rw [if_pos (Or.inr h)]
  refine ⟨?_, rfl, hzero, ?_⟩
  · intro xs _
    unfold gini
    split
    · exact ⟨le_refl 0, zero_le_one⟩
    · dsimp only
      split
      · exact ⟨le_refl 0, zero_le_one⟩
      · exact ⟨le_max_left 0 _, max_le zero_le_one (min_le_left 1 _)⟩
  · intro n a ha
    cases n with
    | zero => rfl
    | succ m =>
      have hne : List.replicate (m + 1) a ≠ [] := by simp
      have hsum : (List.replicate (m + 1) a).sum = ((m + 1 : Nat) : Rat) * a := by
        rw [List.sum_replicate, nsmul_eq_mul]
      have hsum0 : (List.replicate (m + 1) a).sum ≠ 0 := by
        rw [hsum]
        positivity
      have hsorted : List.insertionSort (· ≤ ·) (List.replicate (m + 1) a) =
          List.replicate (m + 1) a := by
        have hperm := List.perm_insertionSort (fun x y : Rat => x ≤ y) (List.replicate (m + 1) a)
        refine List.eq_replicate_iff.mpr ⟨by rw [hperm.length_eq, List.length_replicate], ?_⟩
        intro b hb
        exact List.eq_of_mem_replicate (hperm.mem_iff.mp hb)
      rw [gini_eq_of hne hsum0, hsorted, weightedSum_replicate, hsum,
        List.length_replicate]
      have hN : ((m + 1 : Nat) : Rat) ≠ 0 := by positivity
      have : 2 * (a * (((m + 1 : Nat) : Rat) * ((1 : Nat) : Rat) +
            ((m + 1 : Nat) : Rat) * (((m + 1 : Nat) : Rat) - 1) / 2)) /
            (((m + 1 : Nat) : Rat) * (((m + 1 : Nat) : Rat) * a)) -
            (((m + 1 : Nat) : Rat) + 1) / ((m + 1 : Nat) : Rat) = 0 := by
        field_simp
        ring
      rw [this]
      simp

/-- C8 witness: concrete instances of each conjunct. -/
theorem claim_c8_witness :
    (∀ x ∈ [(1 : Rat), 3], 0 ≤ x) ∧
    (0 ≤ gini [(1 : Rat), 3] ∧ gini [(1 : Rat), 3] ≤ 1) ∧
    gini (List.replicate 3 (2 : Rat)) = 0 ∧
    ([(0 : Rat), 0].sum = 0 ∧ gini [(0 : Rat), 0] = 0) :=
  ⟨by decide, claim_c8_gini_range_and_uniform.1 _ (by decide),
    claim_c8_gini_range_and_uniform.2.2.2 3 2 (by decide),
    by decide, claim_c8_gini_range_and_uniform.2.2.1 _ (by decide)⟩

/-! ## Shared reward-step lemmas (for C5 and C9) -/

theorem clampC_nonneg {s : OpenResourcesState} {raw : AgentId → OpenResourcesAction}
    {a : AgentId} (ha : 0 ≤ s.wealth a) : 0 ≤ clampC s raw a :=
  le_min (le_max_left 0 _) ha

theorem totalContrib_nonneg {cfg : OpenResourcesConfig} {s : OpenResourcesState}
    {raw : AgentId → OpenResourcesAction}
    (hw : ∀ i ∈ cfg.agent_ids, 0 ≤ s.wealth i) : 0 ≤ totalContrib cfg s raw :=
  List.sum_nonneg (fun x hx => by
    obtain ⟨a, ha, rfl⟩ := List.mem_map.1 hx
    exact clampC_nonneg (hw a (mem_orIds.mp ha)))

theorem sum_map_nonpos (l : List AgentId) (f : AgentId → Rat)
    (h : ∀ a ∈ l, f a ≤ 0) : (l.map f).sum ≤ 0 := by
  induction l with
  | nil => simp
  | cons x xs ih =>
    simp only [List.map_cons, List.sum_cons]
    have h1 := h x (List.mem_cons_self x xs)
    have h2 := ih (fun a ha => h a (List.mem_cons_of_mem _ ha))
    linarith

theorem exists_pos_of_sum_pos (l : List AgentId) (f : AgentId → Rat)
    (h : 0 < (l.map f).sum) : ∃ a ∈ l, 0 < f a := by
  by_contra hc
  push_neg at hc
  have := sum_map_nonpos l f hc
  linarith

theorem sum_map_ite_mem (l E : List AgentId) (v : Rat) :
    (l.map (fun a => if a ∈ E then v else 0)).sum =
      v * ((l.filter (fun a => decide (a ∈ E))).length : Rat) := by
  induction l with
  | nil => simp
  | cons x xs ih =>
    by_cases hx : x ∈ E
    · simp only [List.map_cons, List.sum_cons, if_pos hx, List.filter_cons,
        decide_eq_true hx, ih]
      simp only [if_true, List.length_cons]
      push_cast
      ring
    · simp only [List.map_cons, List.sum_cons, if_neg hx, List.filter_cons, ih]
      rw [decide_eq_false hx]
      simp

/-- Case analysis on a successful reward step (gameworld.py lines 313-339). -/
theorem rewardE_ok_cases {cfg : OpenResourcesConfig} {s : OpenResourcesState}
    {raw : AgentId → OpenResourcesAction} {reward : AgentId → Rat}
    (h : rewardE cfg s raw = Except.ok reward) :
    (¬ (0 < cfg.governance_reward_rate ∧ 0 < pAfterContrib cfg s raw ∧
        0 < totalContrib cfg s raw) ∧ reward = fun _ => 0) ∨
    ((0 < cfg.governance_reward_rate ∧ 0 < pAfterContrib cfg s raw ∧
        0 < totalContrib cfg s raw) ∧ cfg.reward_mode = "equal" ∧
      reward = fun a => if a ∈ eligibleAgents cfg s raw then
          (if (eligibleAgents cfg s raw).length = 0 then 0
           else rewardBudget cfg s raw / ((eligibleAgents cfg s raw).length : Rat))
        else 0) ∨
    ((0 < cfg.governance_reward_rate ∧ 0 < pAfterContrib cfg s raw ∧
        0 < totalContrib cfg s raw) ∧ cfg.reward_mode = "proportional" ∧
      reward = fun a => rewardBudget cfg s raw *
        (clampC s raw a / totalContrib cfg s raw)) := by
  unfold rewardE at h
  split at h
  case isTrue hg =>
    split at h
    case isTrue heq =>
      right; left
      exact ⟨hg, heq, (Except.ok.inj h).symm⟩
    case isFalse heq =>
      split at h
      case isTrue hprop =>
        right; right
        exact ⟨hg, hprop, (Except.ok.inj h).symm⟩
      case isFalse => exact absurd h (by simp)
  case isFalse hg =>
    left
    exact ⟨hg, (Except.ok.inj h).symm⟩

theorem rewardBudget_pos {cfg : OpenResourcesConfig} {s : OpenResourcesState}
    {raw : AgentId → OpenResourcesAction}
    (hg : 0 < cfg.governance_reward_rate ∧ 0 < pAfterContrib cfg s raw ∧
      0 < totalContrib cfg s raw) : 0 < rewardBudget cfg s raw :=
  lt_min hg.2.1 (mul_pos hg.1 hg.2.2)

theorem eligible_length_ne_zero {cfg : OpenResourcesConfig} {s : OpenResourcesState}
    {raw : AgentId → OpenResourcesAction} (htc : 0 < totalContrib cfg s raw) :
    (eligibleAgents cfg s raw).length ≠ 0 := by
  obtain ⟨a, ha, hpos⟩ := exists_pos_of_sum_pos _ _ htc
  have hmem : a ∈ eligibleAgents cfg s raw :=
    List.mem_filter.mpr ⟨mem_orIds.mp ha, by simpa using hpos⟩
  intro h0
  rw [List.length_eq_zero.mp h0] at hmem
  exact absurd hmem (List.not_mem_nil a)

/-- The total reward paid never exceeds the post-contribution pool. -/
theorem rewardE_sum_le_pac {cfg : OpenResourcesConfig} {s : OpenResourcesState}
    {raw : AgentId → OpenResourcesAction} {reward : AgentId → Rat}
    (h : rewardE cfg s raw = Except.ok reward)
    (hpac : 0 ≤ pAfterContrib cfg s raw) :
    ((orIds cfg).map reward).sum ≤ pAfterContrib cfg s raw := by
  rcases rewardE_ok_cases h with ⟨_, hr⟩ | ⟨hg, _, hr⟩ | ⟨hg, _, hr⟩
  · subst hr
    simpa using hpac
  · subst hr
    rw [sum_map_ite_mem]
    by_cases hlen : (eligibleAgents cfg s raw).length = 0
    · rw [if_pos hlen]
      simpa using hpac
    · rw [if_neg hlen]
      have hb := rewardBudget_pos hg
      have hlenQ : ((eligibleAgents cfg s raw).length : Rat) ≠ 0 := Nat.cast_ne_zero.mpr hlen
      have hper : 0 ≤ rewardBudget cfg s raw / ((eligibleAgents cfg s raw).length : Rat) := by
        positivity
      have hcount : (((orIds cfg).filter
            (fun a => decide (a ∈ eligibleAgents cfg s raw))).length : Rat) ≤
          ((eligibleAgents cfg s raw).length : Rat) := by
        have hsub : List.Sublist
            ((orIds cfg).filter (fun a => decide (a ∈ eligibleAgents cfg s raw)))
            (eligibleAgents cfg s raw) := by
          have h1 : (orIds cfg).filter (fun a => decide (a ∈ eligibleAgents cfg s raw)) =
              (orIds cfg).filter (fun a => decide (0 < clampC s raw a)) := by
            apply List.filter_congr
            intro a ha
            simp [eligibleAgents, List.mem_filter, mem_orIds.mp ha]
          rw [h1]
          exact (cfg.agent_ids.dedup_sublist).filter _
        exact_mod_cast hsub.length_le
      calc rewardBudget cfg s raw / ((eligibleAgents cfg s raw).length : Rat) *
            (((orIds cfg).filter (fun a => decide (a ∈ eligibleAgents cfg s raw))).length : Rat)
          ≤ rewardBudget cfg s raw / ((eligibleAgents cfg s raw).length : Rat) *
            ((eligibleAgents cfg s raw).length : Rat) :=
            mul_le_mul_of_nonneg_left hcount hper
        _ = rewardBudget cfg s raw := div_mul_cancel₀ _ hlenQ
        _ ≤ pAfterContrib cfg s raw := min_le_left _ _
  · subst hr
    have htc0 : totalContrib cfg s raw ≠ 0 := ne_of_gt hg.2.2
    have hfun : (fun a => rewardBudget cfg s raw *
        (clampC s raw a / totalContrib cfg s raw)) =
        fun a => (rewardBudget cfg s raw / totalContrib cfg s raw) * clampC s raw a := by
      funext a
      ring
    rw [hfun, List.sum_map_mul_left,
      show ((orIds cfg).map (clampC s raw)).sum = totalContrib cfg s raw from rfl,
      div_mul_cancel₀ _ htc0]
    exact min_le_left _ _

theorem rewardE_nonneg {cfg : OpenResourcesConfig} {s : OpenResourcesState}
    {raw : AgentId → OpenResourcesAction} {reward : AgentId → Rat}
    (h : rewardE cfg s raw = Except.ok reward) (a : AgentId)
    (ha : 0 ≤ clampC s raw a) : 0 ≤ reward a := by
  rcases rewardE_ok_cases h with ⟨_, hr⟩ | ⟨hg, _, hr⟩ | ⟨hg, _, hr⟩
  · subst hr; exact le_refl 0
  · subst hr
    dsimp only
    by_cases hmem : a ∈ eligibleAgents cfg s raw
    · rw [if_pos hmem]
      by_cases hlen : (eligibleAgents cfg s raw).length = 0
      · rw [if_pos hlen]
      · rw [if_neg hlen]
        have hb := rewardBudget_pos hg
        positivity
    · rw [if_neg hmem]
  · subst hr
    dsimp only
    exact mul_nonneg (rewardBudget_pos hg).le (div_nonneg ha hg.2.2.le)

theorem harvestActual_nonneg {cfg : OpenResourcesConfig} {s : OpenResourcesState}
    {raw : AgentId → OpenResourcesAction} (hm : 0 ≤ cfg.max_harvest_per_step)
    (hR : 0 ≤ s.R) (a : AgentId) : 0 ≤ harvestActual cfg s raw a := by
  by_cases h0 : hReq cfg raw = 0
  · simp [harvestActual, h0]
  · by_cases hle : hReq cfg raw ≤ s.R
    · simp only [harvestActual, if_neg h0, if_pos hle]
      exact clampH_nonneg hm a
    · simp only [harvestActual, if_neg h0, if_neg hle]
      have hHpos : 0 < hReq cfg raw := lt_of_le_of_lt hR (not_le.mp hle)
      exact mul_nonneg (clampH_nonneg hm a) (div_nonneg hR hHpos.le)

/-! ## Claim C5 -/

/-- C5: in a successful settlement (agent ids form a set, per the data
model), the pool decreases by exactly the total reward paid; when the reward
gate (positive rate, positive post-contribution pool, positive total
contribution) is open, "proportional" pays each agent the budget weighted by
its contribution share, "equal" splits the budget evenly over the agents
with strictly positive contribution, zero contributors get zero, and the
total reward never exceeds the post-contribution pool; when the gate is
closed every reward is zero and the pool is not decreased. -/
theorem claim_c5_governance_rewards (cfg : OpenResourcesConfig)
    (actions : AgentId → Option OpenResourcesAction) (s : OpenResourcesState)
    (tick : OpenResourcesTick) (s2 : OpenResourcesState)
    (hnd : cfg.agent_ids.Nodup)
    (h : openApplyActions cfg actions s = (Except.ok tick, s2)) :
    tick.P_after = tickPoolAfterContrib cfg tick - tickRewardTotal cfg tick ∧
    (0 < cfg.governance_reward_rate → 0 < tickPoolAfterContrib cfg tick →
     0 < tickContribTotal cfg tick →
      (cfg.reward_mode = "proportional" →
        ∀ i ∈ cfg.agent_ids, tick.reward i =
          tickBudget cfg tick * (tick.contribute i / tickContribTotal cfg tick)) ∧
      (cfg.reward_mode = "equal" →
        ∀ i ∈ cfg.agent_ids, tick.reward i =
          if 0 < tick.contribute i then
            tickBudget cfg tick / (tickEligibleCount cfg tick : Rat)
          else 0) ∧
      (∀ i ∈ cfg.agent_ids, tick.contribute i = 0 → tick.reward i = 0) ∧
      tickRewardTotal cfg tick ≤ tickPoolAfterContrib cfg tick) ∧
    (¬ (0 < cfg.governance_reward_rate ∧ 0 < tickPoolAfterContrib cfg tick ∧
        0 < tickContribTotal cfg tick) →
      (∀ i, tick.reward i = 0) ∧ tick.P_after = tickPoolAfterContrib cfg tick) := by
  obtain ⟨reward, regen_delta, hrw, hrg, htick, _⟩ := openApplyActions_ok h
  subst htick
  have hids : orIds cfg = cfg.agent_ids := List.dedup_eq_self.mpr hnd
  have hC : tickContribTotal cfg (openTickOf cfg s (rawOf cfg actions) reward regen_delta) =
      totalContrib cfg s (rawOf cfg actions) := by
    unfold tickContribTotal totalContrib
    rw [hids]
    exact congrArg _ (List.map_congr_left (fun a ha => restrict_mem ha))
  have hpac : tickPoolAfterContrib cfg
      (openTickOf cfg s (rawOf cfg actions) reward regen_delta) =
      pAfterContrib cfg s (rawOf cfg actions) := by
    unfold tickPoolAfterContrib pAfterContrib
    rw [hC]
    rfl
  have hRT : tickRewardTotal cfg (openTickOf cfg s (rawOf cfg actions) reward regen_delta) =
      ((orIds cfg).map reward).sum := by
    unfold tickRewardTotal
    rw [hids]
    exact congrArg _ (List.map_congr_left (fun a ha => restrict_mem ha))
  have hbud : tickBudget cfg (openTickOf cfg s (rawOf cfg actions) reward regen_delta) =
      rewardBudget cfg s (rawOf cfg actions) := by
    unfold tickBudget rewardBudget
    rw [hpac, hC]
  have hElig : tickEligibleCount cfg
      (openTickOf cfg s (rawOf cfg actions) reward regen_delta) =
      (eligibleAgents cfg s (rawOf cfg actions)).length := by
    unfold tickEligibleCount eligibleAgents
    congr 1
    apply List.filter_congr
    intro a ha
    rw [show (openTickOf cfg s (rawOf cfg actions) reward regen_delta).contribute a =
      clampC s (rawOf cfg actions) a from restrict_mem ha]
  have hPafter : (openTickOf cfg s (rawOf cfg actions) reward regen_delta).P_after =
      pAfterContrib cfg s (rawOf cfg actions) - ((orIds cfg).map reward).sum := rfl
  refine ⟨?_, ?_, ?_⟩
  · rw [hPafter, hpac, hRT]
  · intro hrate hpacPos htcPos
    rw [hpac] at hpacPos
    rw [hC] at htcPos
    have hg : 0 < cfg.governance_reward_rate ∧
        0 < pAfterContrib cfg s (rawOf cfg actions) ∧
        0 < totalContrib cfg s (rawOf cfg actions) := ⟨hrate, hpacPos, htcPos⟩
    rcases rewardE_ok_cases hrw with ⟨hng, _⟩ | ⟨_, hmode, hr⟩ | ⟨_, hmode, hr⟩
    · exact absurd hg hng
    · -- equal mode
      refine ⟨?_, ?_, ?_, ?_⟩
      · intro hprop
        rw [hprop] at hmode
        exact absurd hmode (by decide)
      · intro _ i hi
        have hci : (openTickOf cfg s (rawOf cfg actions) reward regen_delta).contribute i =
            clampC s (rawOf cfg actions) i := restrict_mem hi
        have hri : (openTickOf cfg s (rawOf cfg actions) reward regen_delta).reward i =
            reward i := restrict_mem hi
        rw [hri, hci, hbud, hElig, hr]
        dsimp only
        by_cases hpos : 0 < clampC s (rawOf cfg actions) i
        · have hmemE : i ∈ eligibleAgents cfg s (rawOf cfg actions) :=
            List.mem_filter.mpr ⟨hi, by simpa using hpos⟩
          rw [if_pos hmemE, if_pos hpos, if_neg (eligible_length_ne_zero hg.2.2)]
        · have hnmem : ¬ i ∈ eligibleAgents cfg s (rawOf cfg actions) := fun hmem =>
            hpos (by simpa using (List.mem_filter.mp hmem).2)
          rw [if_neg hnmem, if_neg hpos]
      · intro i hi hzero
        have hci : (openTickOf cfg s (rawOf cfg actions) reward regen_delta).contribute i =
            clampC s (rawOf cfg actions) i := restrict_mem hi
        rw [hci] at hzero
        have hri : (openTickOf cfg s (rawOf cfg actions) reward regen_delta).reward i =
            reward i := restrict_mem hi
        rw [hri, hr]
        dsimp only
        have hnmem : ¬ i ∈ eligibleAgents cfg s (rawOf cfg actions) := fun hmem => by
          have := (List.mem_filter.mp hmem).2
          rw [hzero] at this
          simp at this
        rw [if_neg hnmem]
      · rw [hRT, hpac]
        exact rewardE_sum_le_pac hrw hg.2.1.le
    · -- proportional mode
      refine ⟨?_, ?_, ?_, ?_⟩
      · intro _ i hi
        have hci : (openTickOf cfg s (rawOf cfg actions) reward regen_delta).contribute i =
            clampC s (rawOf cfg actions) i := restrict_mem hi
        have hri : (openTickOf cfg s (rawOf cfg actions) reward regen_delta).reward i =
            reward i := restrict_mem hi
        rw [hri, hci, hbud, hC, hr]
      · intro heq
        rw [heq] at hmode
        exact absurd hmode (by decide)
      · intro i hi hzero
        have hci : (openTickOf cfg s (rawOf cfg actions) reward regen_delta).contribute i =
            clampC s (rawOf cfg actions) i := restrict_mem hi
        rw [hci] at hzero
        have hri : (openTickOf cfg s (rawOf cfg actions) reward regen_delta).reward i =
            reward i := restrict_mem hi
        rw [hri, hr]
        dsimp only
        rw [hzero]
        simp
      · rw [hRT, hpac]
        exact rewardE_sum_le_pac hrw hg.2.1.le
  · intro hng
    rw [hpac] at hng
    rw [hC] at hng
    rcases rewardE_ok_cases hrw with ⟨_, hr⟩ | ⟨hg, _, _⟩ | ⟨hg, _, _⟩
    · subst hr
      constructor
      · intro i
        show restrict cfg.agent_ids (fun _ => (0 : Rat)) i = 0
        unfold restrict
        split <;> rfl
      · rw [hPafter, hpac]
        simp
    · exact absurd hg hng
    · exact absurd hg hng

/-- C5 witness: the proportional governance fixture settles successfully and
the pool-accounting equation of the claim holds there. -/
theorem claim_c5_witness :
    cfgGov.agent_ids.Nodup ∧
    ∃ tick s2, openApplyActions cfgGov actContrib (openInit cfgGov) = (Except.ok tick, s2) ∧
      tick.P_after = tickPoolAfterContrib cfgGov tick - tickRewardTotal cfgGov tick :=
  ⟨by decide, _, _, rfl,
    (claim_c5_governance_rewards cfgGov actContrib (openInit cfgGov) _ _ (by decide) rfl).1⟩

/-! ## Claim C9 -/

/-- C9 counterexample to the claim as stated: from a state with non-negative
pool and wealth but negative stock, a successful settlement drives agent 0's
wealth negative (the scarcity scale `R / H_req` is negative); and with a
negative `max_harvest_per_step` the clamped request itself is negative, so
even a non-negative stock does not save the claim. -/
theorem claim_c9_counterexample :
    ((0 ≤ stNegR.P ∧ ∀ i ∈ cfgOne.agent_ids, 0 ≤ stNegR.wealth i) ∧
      ∃ tick s2, openApplyActions cfgOne actFive stNegR = (Except.ok tick, s2) ∧
        s2.wealth 0 < 0) ∧
    ((0 ≤ (openInit cfgNegMax).P ∧ (0:Rat) ≤ (openInit cfgNegMax).R ∧
        ∀ i ∈ cfgNegMax.agent_ids, 0 ≤ (openInit cfgNegMax).wealth i) ∧
      ∃ tick s2, openApplyActions cfgNegMax actZero (openInit cfgNegMax) =
          (Except.ok tick, s2) ∧ s2.wealth 0 < 0) :=
  ⟨⟨⟨by decide, by decide⟩, _, _, rfl, by decide⟩,
    ⟨⟨by decide, by decide, by decide⟩, _, _, rfl, by decide⟩⟩

/-- C9 (amended): if additionally the pre-step stock and the configured
harvest cap are non-negative, a successful settlement keeps the pool and
every agent's wealth non-negative. -/
theorem claim_c9_nonneg_preserved (cfg : OpenResourcesConfig)
    (actions : AgentId → Option OpenResourcesAction) (s : OpenResourcesState)
    (tick : OpenResourcesTick) (s2 : OpenResourcesState)
    (hP : 0 ≤ s.P) (hw : ∀ i ∈ cfg.agent_ids, 0 ≤ s.wealth i)
    (hR : 0 ≤ s.R) (hm : 0 ≤ cfg.max_harvest_per_step)
    (h : openApplyActions cfg actions s = (Except.ok tick, s2)) :
    0 ≤ s2.P ∧ ∀ i, 0 ≤ s2.wealth i := by
  obtain ⟨reward, regen_delta, hrw, hrg, _, hstate⟩ := openApplyActions_ok h
  subst hstate
  have htc : 0 ≤ totalContrib cfg s (rawOf cfg actions) := totalContrib_nonneg hw
  have hpac : 0 ≤ pAfterContrib cfg s (rawOf cfg actions) := add_nonneg hP htc
  constructor
  · show 0 ≤ pAfterContrib cfg s (rawOf cfg actions) - ((orIds cfg).map reward).sum
    have := rewardE_sum_le_pac hrw hpac
    linarith
  · intro i
    show 0 ≤ restrict cfg.agent_ids
      (wealthAfterReward cfg s (rawOf cfg actions) reward) i
    by_cases hmem : i ∈ cfg.agent_ids
    · rw [restrict_mem hmem]
      unfold wealthAfterReward wealthAfterHarvest wealthAfterContrib
      have h1 : clampC s (rawOf cfg actions) i ≤ s.wealth i := min_le_right _ _
      have h2 : 0 ≤ harvestActual cfg s (rawOf cfg actions) i :=
        harvestActual_nonneg hm hR i
      have h3 : 0 ≤ reward i := rewardE_nonneg hrw i (clampC_nonneg (hw i hmem))
      have h4 := hw i hmem
      have h5 : 0 ≤ clampC s (rawOf cfg actions) i := clampC_nonneg h4
      linarith
    · simp [restrict, hmem]

/-- C9 witness: from the fresh default one-agent state, a harvest request of
5 settles and keeps pool and wealth non-negative. -/
theorem claim_c9_witness :
    ((0 : Rat) ≤ (openInit cfgOne).P ∧
      (∀ i ∈ cfgOne.agent_ids, (0 : Rat) ≤ (openInit cfgOne).wealth i) ∧
      (0 : Rat) ≤ (openInit cfgOne).R ∧
      (0 : Rat) ≤ cfgOne.max_harvest_per_step) ∧
    ∃ tick s2, openApplyActions cfgOne actFive (openInit cfgOne) = (Except.ok tick, s2) ∧
      (0 ≤ s2.P ∧ ∀ i, 0 ≤ s2.wealth i) :=
  ⟨⟨by decide, by decide, by decide, by decide⟩, _, _, rfl,
    claim_c9_nonneg_preserved cfgOne actFive (openInit cfgOne) _ _
      (by decide) (by decide) (by decide) (by decide) rfl⟩

/-! ## Claim C2 support -/

theorem validateAgent_sound {ai : AgentId → Option Action} :
    ∀ {nbrs : List AgentId}, validateAgent ai nbrs = Except.ok () →
      ∀ j ∈ nbrs, ∃ a, ai j = some a ∧ (a = "C" ∨ a = "D") := by
  intro nbrs
  induction nbrs with
  | nil => intro _ j hj; exact absurd hj (List.not_mem_nil j)
  | cons x xs ih =>
    intro h j hj
    unfold validateAgent at h
    cases hax : ai x with
    | none => rw [hax] at h; exact Except.noConfusion h
    | some a =>
      rw [hax] at h
      dsimp only at h
      split at h
      case isTrue hval2 =>
        rcases List.mem_cons.mp hj with rfl | hj2
        · exact ⟨a, hax, hval2⟩
        · exact ih h j hj2
      case isFalse => exact Except.noConfusion h

theorem validateAll_sound {actions : AgentId → Option (AgentId → Option Action)} :
    ∀ {g : Graph}, validateAll actions g = Except.ok () →
      ∀ p ∈ g, ∃ ai, actions p.1 = some ai ∧ validateAgent ai p.2 = Except.ok () := by
  intro g
  induction g with
  | nil => intro _ p hp; exact absurd hp (List.not_mem_nil p)
  | cons q rest ih =>
    intro h p hp
    unfold validateAll at h
    cases haq : actions q.1 with
    | none => rw [haq] at h; exact Except.noConfusion h
    | some ai =>
      rw [haq] at h
      dsimp only at h
      cases hv : validateAgent ai q.2 with
      | error e => rw [hv] at h; exact Except.noConfusion h
      | ok u =>
        rw [hv] at h
        dsimp only at h
        rcases List.mem_cons.mp hp with rfl | hp2
        · exact ⟨ai, haq, by cases u; exact hv⟩
        · exact ih h p hp2

theorem adj_some_mem {g : Graph} {i : AgentId} {ns : List AgentId}
    (h : adj g i = some ns) : ∃ p, p ∈ g ∧ p.1 = i ∧ p.2 = ns := by
  unfold adj at h
  obtain ⟨p, hfind, hsnd⟩ := Option.map_eq_some'.mp h
  exact ⟨p, List.mem_of_find?_eq_some hfind, by simpa using List.find?_some hfind, hsnd⟩

theorem mem_keys_of_adj {g : Graph} {i : AgentId} {ns : List AgentId}
    (h : adj g i = some ns) : i ∈ g.map Prod.fst := by
  obtain ⟨p, hp, h1, _⟩ := adj_some_mem h
  exact List.mem_map.mpr ⟨p, hp, h1⟩

theorem adj_of_mem : ∀ {g : Graph}, (g.map Prod.fst).Nodup →
    ∀ {i : AgentId} {ns : List AgentId}, (i, ns) ∈ g → adj g i = some ns := by
  intro g
  induction g with
  | nil => intro _ i ns h; exact absurd h (List.not_mem_nil _)
  | cons q rest ih =>
    intro hkeys i ns hmem
    have hkeys2 : (q.1 :: rest.map Prod.fst).Nodup := by simpa using hkeys
    by_cases hq : q.1 = i
    · have hadj : adj (q :: rest) i = some q.2 := by
        unfold adj
        rw [List.find?_cons_of_pos _ (by simpa using hq)]
        rfl
      rcases List.mem_cons.mp hmem with heq | htail
      · rw [hadj, ← heq]
      · exfalso
        have hkmem : i ∈ rest.map Prod.fst := List.mem_map.mpr ⟨(i, ns), htail, rfl⟩
        rw [hq] at hkeys2
        exact (List.nodup_cons.mp hkeys2).1 hkmem
    · have hadj : adj (q :: rest) i = adj rest i := by
        unfold adj
        rw [List.find?_cons_of_neg _ (by simpa using hq)]
      rw [hadj]
      rcases List.mem_cons.mp hmem with heq | htail
      · exact absurd (by rw [← heq]) hq
      · exact ih (List.nodup_cons.mp hkeys2).2 htail

theorem hasEdge_iff {g : Graph} {i j : AgentId} :
    hasEdge g i j = true ↔ ∃ ns, adj g i = some ns ∧ j ∈ ns := by
  unfold hasEdge
  cases h : adj g i with
  | none =>
    simp only [Bool.false_eq_true, false_iff]
    rintro ⟨ns, hns, _⟩
    exact Option.noConfusion hns
  | some ns =>
    simp only [decide_eq_true_eq]
    constructor
    · intro hj; exact ⟨ns, rfl, hj⟩
    · rintro ⟨ns2, hns2, hj⟩
      cases Option.some.inj hns2
      exact hj

theorem mem_edgeList : ∀ {g : Graph} {i j : AgentId},
    (i, j) ∈ edgeList g ↔ ∃ p, p ∈ g ∧ p.1 = i ∧ j ∈ p.2 ∧ i < j := by
  intro g
  induction g with
  | nil =>
    intro i j
    simp [edgeList]
  | cons q rest ih =>
    intro i j
    unfold edgeList
    rw [List.mem_append]
    constructor
    · rintro (hin | hrest)
      · obtain ⟨j2, hj2, heq⟩ := List.mem_map.1 hin
        obtain ⟨hjmem, hlt⟩ := List.mem_filter.1 hj2
        obtain ⟨h1, h2⟩ := Prod.mk.injEq .. ▸ heq
        exact ⟨q, List.mem_cons_self q rest, h1, h2 ▸ hjmem,
          h1 ▸ h2 ▸ of_decide_eq_true hlt⟩
      · obtain ⟨p, hp, h1, h2, h3⟩ := ih.1 hrest
        exact ⟨p, List.mem_cons_of_mem q hp, h1, h2, h3⟩
    · rintro ⟨p, hp, h1, h2, h3⟩
      rcases List.mem_cons.mp hp with rfl | hp2
      · left
        exact List.mem_map.mpr ⟨j, List.mem_filter.mpr ⟨h2, by rw [h1]; simpa using h3⟩,
          by rw [h1]⟩
      · right
        exact ih.2 ⟨p, hp2, h1, h2, h3⟩

theorem mem_edgeList_iff_hasEdge {g : Graph} (hkeys : (g.map Prod.fst).Nodup)
    {i j : AgentId} : (i, j) ∈ edgeList g ↔ (i < j ∧ hasEdge g i j = true) := by
  rw [mem_edgeList]
  constructor
  · rintro ⟨p, hp, rfl, hj, hlt⟩
    refine ⟨hlt, hasEdge_iff.mpr ⟨p.2, adj_of_mem hkeys ?_, hj⟩⟩
    exact hp
  · rintro ⟨hlt, he⟩
    obtain ⟨ns, hadj, hj⟩ := hasEdge_iff.mp he
    obtain ⟨p, hp, h1, h2⟩ := adj_some_mem hadj
    exact ⟨p, hp, h1, by rw [h2]; exact hj, hlt⟩

theorem edgeList_nodup : ∀ {g : Graph}, (g.map Prod.fst).Nodup →
    (∀ p ∈ g, p.2.Nodup) → (edgeList g).Nodup := by
  intro g
  induction g with
  | nil => intro _ _; exact List.nodup_nil
  | cons q rest ih =>
    intro hkeys hnbr
    have hkeys2 : (q.1 :: rest.map Prod.fst).Nodup := by simpa using hkeys
    unfold edgeList
    apply List.Nodup.append
    · refine List.Nodup.map ?_ ((hnbr q (List.mem_cons_self q rest)).filter _)
      intro a b hab
      exact (Prod.mk.injEq .. ▸ hab).2
    · exact ih (List.nodup_cons.mp hkeys2).2 (fun p hp => hnbr p (List.mem_cons_of_mem q hp))
    · intro x hx1 hx2
      obtain ⟨j2, _, heq⟩ := List.mem_map.1 hx1
      obtain ⟨p, hp, h1, _, _⟩ := mem_edgeList.mp (show (x.1, x.2) ∈ edgeList rest from hx2)
      have hx1eq : x.1 = q.1 := by rw [← heq]
      have : q.1 ∈ rest.map Prod.fst := List.mem_map.mpr ⟨p, hp, by rw [h1, hx1eq]⟩
      exact (List.nodup_cons.mp hkeys2).1 this

theorem payoff_ok_of_valid (m : PayoffMatrix) {a b : Action}
    (ha : a = "C" ∨ a = "D") (hb : b = "C" ∨ b = "D") :
    ∃ pq, m.payoff a b = Except.ok pq := by
  rcases ha with rfl | rfl <;> rcases hb with rfl | rfl
  · exact ⟨(m.R, m.R), rfl⟩
  · exact ⟨(m.S, m.T), rfl⟩
  · exact ⟨(m.T, m.S), rfl⟩
  · exact ⟨(m.P, m.P), rfl⟩

theorem lookup_valid {g : Graph} {actions : AgentId → Option (AgentId → Option Action)}
    (hval : validateAll actions g = Except.ok ()) {i j : AgentId}
    (he : hasEdge g i j = true) :
    ∃ a, lookup2 actions i j = some a ∧ (a = "C" ∨ a = "D") := by
  obtain ⟨ns, hadj, hj⟩ := hasEdge_iff.mp he
  obtain ⟨p, hp, h1, h2⟩ := adj_some_mem hadj
  obtain ⟨ai, hai, hvag⟩ := validateAll_sound hval p hp
  obtain ⟨a, haj, hv⟩ := validateAgent_sound hvag j (by rw [h2]; exact hj)
  refine ⟨a, ?_, hv⟩
  unfold lookup2
  rw [← h1, hai]
  exact haj

theorem payoffCalls_ok {w : Gameworld} {actions : AgentId → Option (AgentId → Option Action)}
    (hval : validateAll actions w.graph = Except.ok ()) :
    ∀ edges : List (AgentId × AgentId),
      (∀ e ∈ edges, hasEdge w.graph e.1 e.2 = true ∧ hasEdge w.graph e.2 e.1 = true) →
      ∃ cs, payoffCalls w.payoff (w.graph.map Prod.fst) actions edges = Except.ok cs ∧
        cs.map Prod.fst = edges ∧
        (∀ c ∈ cs, ∃ a_ij a_ji, lookup2 actions c.1.1 c.1.2 = some a_ij ∧
          lookup2 actions c.1.2 c.1.1 = some a_ji ∧
          w.payoff.payoff a_ij a_ji = Except.ok c.2) := by
  intro edges
  induction edges with
  | nil =>
    intro _
    exact ⟨[], rfl, rfl, fun c hc => absurd hc (List.not_mem_nil c)⟩
  | cons e rest ih =>
    intro hprop
    obtain ⟨h12, h21⟩ := hprop e (List.mem_cons_self e rest)
    obtain ⟨a_ij, ha1, hv1⟩ := lookup_valid hval h12
    obtain ⟨a_ji, ha2, hv2⟩ := lookup_valid hval h21
    obtain ⟨pq, hpq⟩ := payoff_ok_of_valid w.payoff hv1 hv2
    have hk : e.2 ∈ w.graph.map Prod.fst := by
      obtain ⟨ns, hadj, _⟩ := hasEdge_iff.mp h21
      exact mem_keys_of_adj hadj
    obtain ⟨cs, hcs, hmap, hprops⟩ := ih (fun x hx => hprop x (List.mem_cons_of_mem e hx))
    have heval : edgeEval w.payoff (w.graph.map Prod.fst) actions e = Except.ok (e, pq) := by
      unfold edgeEval
      rw [ha1]
      dsimp only
      rw [ha2]
      dsimp only
      rw [hpq]
      dsimp only
      rw [if_pos hk]
    refine ⟨(e, pq) :: cs, ?_, ?_, ?_⟩
    · unfold payoffCalls
      rw [heval]
      dsimp only
      rw [hcs]
    · rw [List.map_cons, hmap]
    · intro c hc
      rcases List.mem_cons.mp hc with rfl | hc2
      · exact ⟨a_ij, a_ji, ha1, ha2, hpq⟩
      · exact hprops c hc2

theorem sum_map_add_int (l : List AgentId) (f g : AgentId → Int) :
    (l.map (fun x => f x + g x)).sum = (l.map f).sum + (l.map g).sum := by
  induction l with
  | nil => simp
  | cons x xs ih =>
    simp only [List.map_cons, List.sum_cons, ih]
    ring

theorem double_sum_swap (ks : List AgentId)
    (cs : List ((AgentId × AgentId) × (Int × Int)))
    (f : AgentId → ((AgentId × AgentId) × (Int × Int)) → Int) :
    (ks.map (fun i => (cs.map (f i)).sum)).sum =
      (cs.map (fun c => (ks.map (fun i => f i c)).sum)).sum := by
  induction cs with
  | nil => simp
  | cons c cs2 ih =>
    simp only [List.map_cons, List.sum_cons]
    rw [← ih, ← sum_map_add_int]

theorem sum_indicator_single : ∀ (ks : List AgentId), ks.Nodup →
    ∀ (a : AgentId), a ∈ ks → ∀ (v : Int),
      (ks.map (fun i => if a = i then v else 0)).sum = v := by
  intro ks
  induction ks with
  | nil => intro _ a ha; exact absurd ha (List.not_mem_nil a)
  | cons k ks2 ih =>
    intro hnd a ha v
    simp only [List.map_cons, List.sum_cons]
    rcases List.mem_cons.mp ha with rfl | ha2
    · rw [if_pos rfl]
      have hzero : (ks2.map (fun i => if a = i then v else 0)).sum = 0 := by
        have hnotin := (List.nodup_cons.mp hnd).1
        rw [List.map_congr_left (fun i hi =>
          if_neg (show ¬ a = i from fun heq => hnotin (by rw [heq]; exact hi)))]
        simp
      rw [hzero, add_zero]
    · have hne : a ≠ k := fun heq => (List.nodup_cons.mp hnd).1 (heq ▸ ha2)
      rw [if_neg hne, ih (List.nodup_cons.mp hnd).2 a ha2 v, zero_add]

theorem sum_indicatorContrib (ks : List AgentId) (hnd : ks.Nodup)
    (c : (AgentId × AgentId) × (Int × Int)) (h1 : c.1.1 ∈ ks) (h2 : c.1.2 ∈ ks) :
    (ks.map (fun i => indicatorContrib c i)).sum = c.2.1 + c.2.2 := by
  unfold indicatorContrib
  rw [sum_map_add_int, sum_indicator_single ks hnd c.1.1 h1 c.2.1,
    sum_indicator_single ks hnd c.1.2 h2 c.2.2]

/-- The success equation of `Gameworld.apply_actions`. -/
theorem pd_apply_ok {w : Gameworld} {actions : AgentId → Option (AgentId → Option Action)}
    {cs : List ((AgentId × AgentId) × (Int × Int))}
    (hval : validateAll actions w.graph = Except.ok ())
    (hcalls : payoffCalls w.payoff (w.graph.map Prod.fst) actions (edgeList w.graph) =
      Except.ok cs) :
    Gameworld.apply_actions w actions =
      (Except.ok
        { round := w.t, actions := actions,
          delta_payoff := pdDelta (w.graph.map Prod.fst) cs,
          wealth := pdNewWealth (w.graph.map Prod.fst) w.wealth cs },
        { graph := w.graph, payoff := w.payoff,
          wealth := pdNewWealth (w.graph.map Prod.fst) w.wealth cs,
          last_actions := pdNewLast w.graph actions, t := w.t + 1 }) := by
  unfold Gameworld.apply_actions
  rw [hval]
  dsimp only
  rw [hcalls]

/-! ## Claim C2 -/

/-- C2: on a symmetric graph with duplicate-free neighbor lists and a valid
joint action, settlement evaluates the payoff matrix exactly once per
undirected edge, in the canonical direction (lower id first), credits both
endpoints, and the per-round payoff deltas sum to the total payoff over all
evaluated edges — no edge is credited zero times or twice. -/
theorem claim_c2_once_per_undirected_edge (w : Gameworld)
    (actions : AgentId → Option (AgentId → Option Action))
    (hkeys : (w.graph.map Prod.fst).Nodup)
    (hsym : ∀ p ∈ w.graph, ∀ j ∈ p.2, hasEdge w.graph j p.1 = true)
    (hnbr : ∀ p ∈ w.graph, p.2.Nodup)
    (hval : validateAll actions w.graph = Except.ok ()) :
    ∃ calls tick w2,
      payoffCalls w.payoff (w.graph.map Prod.fst) actions (edgeList w.graph) =
        Except.ok calls ∧
      Gameworld.apply_actions w actions = (Except.ok tick, w2) ∧
      (calls.map Prod.fst).Nodup ∧
      (∀ i j : AgentId, (i, j) ∈ calls.map Prod.fst ↔
        (i < j ∧ hasEdge w.graph i j = true)) ∧
      (∀ c ∈ calls, ∃ a_ij a_ji, lookup2 actions c.1.1 c.1.2 = some a_ij ∧
        lookup2 actions c.1.2 c.1.1 = some a_ji ∧
        w.payoff.payoff a_ij a_ji = Except.ok c.2) ∧
      (∀ i ∈ w.graph.map Prod.fst,
        tick.delta_payoff i = (calls.map (fun c => indicatorContrib c i)).sum) ∧
      ((w.graph.map Prod.fst).map tick.delta_payoff).sum =
        (calls.map (fun c => c.2.1 + c.2.2)).sum := by
  have hprop : ∀ e ∈ edgeList w.graph,
      hasEdge w.graph e.1 e.2 = true ∧ hasEdge w.graph e.2 e.1 = true := by
    intro e he
    obtain ⟨p, hp, h1, h2, _⟩ :=
      mem_edgeList.mp (show (e.1, e.2) ∈ edgeList w.graph from he)
    constructor
    · refine hasEdge_iff.mpr ⟨p.2, adj_of_mem hkeys ?_, h2⟩
      rw [← h1]
      exact hp
    · have := hsym p hp e.2 h2
      rw [h1] at this
      exact this
  obtain ⟨cs, hcalls, hmap, hpayoffs⟩ := payoffCalls_ok hval (edgeList w.graph) hprop
  have hends : ∀ c ∈ cs, c.1.1 ∈ w.graph.map Prod.fst ∧ c.1.2 ∈ w.graph.map Prod.fst := by
    intro c hc
    have hce : (c.1.1, c.1.2) ∈ edgeList w.graph := by
      rw [← hmap]
      exact List.mem_map_of_mem Prod.fst hc
    obtain ⟨p, hp, h1, h2, _⟩ := mem_edgeList.mp hce
    constructor
    · exact List.mem_map.mpr ⟨p, hp, h1⟩
    · have hsymedge := hsym p hp c.1.2 h2
      obtain ⟨ns, hadj, _⟩ := hasEdge_iff.mp hsymedge
      exact mem_keys_of_adj hadj
  refine ⟨cs, _, _, hcalls, pd_apply_ok hval hcalls, ?_, ?_, hpayoffs, ?_, ?_⟩
  · rw [hmap]
    exact edgeList_nodup hkeys hnbr
  · intro i j
    rw [hmap]
    exact mem_edgeList_iff_hasEdge hkeys
  · intro i hi
    show pdDelta (w.graph.map Prod.fst) cs i = _
    unfold pdDelta
    rw [if_pos hi]
  · have hcong : (w.graph.map Prod.fst).map (pdDelta (w.graph.map Prod.fst) cs) =
        (w.graph.map Prod.fst).map
          (fun i => (cs.map (fun c => indicatorContrib c i)).sum) := by
      refine List.map_congr_left (fun i hi => ?_)
      unfold pdDelta
      rw [if_pos hi]
    show ((w.graph.map Prod.fst).map (pdDelta (w.graph.map Prod.fst) cs)).sum = _
    rw [hcong, double_sum_swap]
    refine congrArg List.sum (List.map_congr_left (fun c hc => ?_))
    exact sum_indicatorContrib _ hkeys c (hends c hc).1 (hends c hc).2

/-- C2 witness: the two-agent mutual-cooperation round satisfies all the
well-formedness hypotheses and the settlement equals one payoff evaluation
on the single edge (0, 1). -/
theorem claim_c2_witness :
    ((wPD.graph.map Prod.fst).Nodup ∧
      (∀ p ∈ wPD.graph, ∀ j ∈ p.2, hasEdge wPD.graph j p.1 = true) ∧
      (∀ p ∈ wPD.graph, p.2.Nodup) ∧
      validateAll actPD wPD.graph = Except.ok ()) ∧
    ∃ calls tick w2,
      payoffCalls wPD.payoff (wPD.graph.map Prod.fst) actPD (edgeList wPD.graph) =
        Except.ok calls ∧
      Gameworld.apply_actions wPD actPD = (Except.ok tick, w2) ∧
      (calls.map Prod.fst).Nodup ∧
      (∀ i j : AgentId, (i, j) ∈ calls.map Prod.fst ↔
        (i < j ∧ hasEdge wPD.graph i j = true)) ∧
      (∀ c ∈ calls, ∃ a_ij a_ji, lookup2 actPD c.1.1 c.1.2 = some a_ij ∧
        lookup2 actPD c.1.2 c.1.1 = some a_ji ∧
        wPD.payoff.payoff a_ij a_ji = Except.ok c.2) ∧
      (∀ i ∈ wPD.graph.map Prod.fst,
        tick.delta_payoff i = (calls.map (fun c => indicatorContrib c i)).sum) ∧
      ((wPD.graph.map Prod.fst).map tick.delta_payoff).sum =
        (calls.map (fun c => c.2.1 + c.2.2)).sum :=
  ⟨⟨by decide, by decide, by decide, rfl⟩,
    claim_c2_once_per_undirected_edge wPD actPD (by decide) (by decide) (by decide) rfl⟩

end LlmSocialSim
